import Mathlib

set_option maxRecDepth 40000

/-!
Verification of the DagPool / DagNode core of the filedag-storage repository.

The definitions below are a shallow embedding of the Go source:
* `sha256String`, `fileID` embed `cmd/dagpool/server.go` (package `node`);
* `dagNodePut`, `dagNodeGet`, `dagNodeGetSize` embed the `DagNode` methods
  of the same file;
* `dagPoolAdd`, `dagPoolGet`, `dagPoolGetSize`, `dagPoolRemove`, `poolHas`
  and the user-administration operations embed `dag/pool/mulNode.go`
  (package `poolservice`).
Components of the repository whose implementation files are not part of the
source snapshot (the `reference` package, the `dpuser` package, the erasure
codec) are modelled from the specification; each such definition carries a
doc comment starting with `Modelled from the spec:`.
-/

/-! ### Bytes, UTF-8 and hex rendering -/

/-- 2^32, the modulus for 32-bit machine arithmetic. -/
def M32 : Nat := 4294967296

/-- UTF-8 encoding of a single character, as Go produces for `[]byte(string)`. -/
def encodeCharUtf8 (c : Char) : List Nat :=
  let n := c.toNat
  if n < 128 then [n]
  else if n < 2048 then
    [192 ||| (n >>> 6), 128 ||| (n &&& 63)]
  else if n < 65536 then
    [224 ||| (n >>> 12), 128 ||| ((n >>> 6) &&& 63), 128 ||| (n &&& 63)]
  else
    [240 ||| (n >>> 18), 128 ||| ((n >>> 12) &&& 63),
     128 ||| ((n >>> 6) &&& 63), 128 ||| (n &&& 63)]

/-- The bytes of a Go string (UTF-8). -/
def utf8Bytes (s : String) : List Nat :=
  (s.data.map encodeCharUtf8).flatten

/-- The sixteen lowercase hexadecimal digits. -/
def hexChars : List Char := "0123456789abcdef".data

/-- Two lowercase hex characters for one byte. -/
def hexByte (b : Nat) : List Char :=
  [hexChars.getD ((b / 16) % 16) '0', hexChars.getD (b % 16) '0']

/-- Lowercase hex rendering of a byte list, as Go's `fmt.Sprintf("%x", ...)`. -/
def toHex (bs : List Nat) : String :=
  String.mk ((bs.map hexByte).flatten)

/-! ### SHA-256 (crypto/sha256) -/

/-- SHA-256 round constants. -/
def sha256K : List Nat :=
  [1116352408, 1899447441, 3049323471, 3921009573, 961987163, 1508970993,
   2453635748, 2870763221, 3624381080, 310598401, 607225278, 1426881987,
   1925078388, 2162078206, 2614888103, 3248222580, 3835390401, 4022224774,
   264347078, 604807628, 770255983, 1249150122, 1555081692, 1996064986,
   2554220882, 2821834349, 2952996808, 3210313671, 3336571891, 3584528711,
   113926993, 338241895, 666307205, 773529912, 1294757372, 1396182291,
   1695183700, 1986661051, 2177026350, 2456956037, 2730485921, 2820302411,
   3259730800, 3345764771, 3516065817, 3600352804, 4094571909, 275423344,
   430227734, 506948616, 659060556, 883997877, 958139571, 1322822218,
   1537002063, 1747873779, 1955562222, 2024104815, 2227730452, 2361852424,
   2428436474, 2756734187, 3204031479, 3329325298]

/-- SHA-256 initial hash state. -/
def sha256H0 : List Nat :=
  [1779033703, 3144134277, 1013904242, 2773480762,
   1359893119, 2600822924, 528734635, 1541459225]

/-- Addition modulo 2^32. -/
def add32 (a b : Nat) : Nat := (a + b) % M32

/-- Right rotation of a 32-bit word. -/
def rotr32 (x n : Nat) : Nat := ((x >>> n) ||| (x <<< (32 - n))) % M32

/-- Bitwise complement of a 32-bit word. -/
def not32 (x : Nat) : Nat := x ^^^ (M32 - 1)

/-- Split a list into `n` consecutive parts of `s` elements each. -/
def chunkParts {α : Type} : Nat → Nat → List α → List (List α)
  | 0, _, _ => []
  | n + 1, s, l => l.take s :: chunkParts n s (l.drop s)

/-- Big-endian 32-bit word from four bytes. -/
def wordOfBytes (bs : List Nat) : Nat :=
  bs.foldl (fun acc b => acc * 256 + b) 0

/-- Four big-endian bytes of a 32-bit word. -/
def bytesOfWord (w : Nat) : List Nat :=
  [(w >>> 24) % 256, (w >>> 16) % 256, (w >>> 8) % 256, w % 256]

/-- Eight big-endian bytes of a 64-bit length value. -/
def bytesOfWord64 (w : Nat) : List Nat :=
  [(w >>> 56) % 256, (w >>> 48) % 256, (w >>> 40) % 256, (w >>> 32) % 256,
   (w >>> 24) % 256, (w >>> 16) % 256, (w >>> 8) % 256, w % 256]

/-- SHA-256 padding: append 0x80, zeros, and the 64-bit bit length. -/
def sha256Pad (msg : List Nat) : List Nat :=
  let len := msg.length
  let zeros := (64 - ((len + 9) % 64)) % 64
  msg ++ [128] ++ List.replicate zeros 0 ++ bytesOfWord64 (8 * len)

/-- The 64-entry message schedule of one block. -/
def sha256Schedule (block : List Nat) : Array Nat :=
  let w16 : Array Nat := ((chunkParts 16 4 block).map wordOfBytes).toArray
  (List.range 48).foldl
    (fun w _ =>
      let n := w.size
      let wm2 := w.getD (n - 2) 0
      let wm7 := w.getD (n - 7) 0
      let wm15 := w.getD (n - 15) 0
      let wm16 := w.getD (n - 16) 0
      let s0 := (rotr32 wm15 7) ^^^ (rotr32 wm15 18) ^^^ (wm15 >>> 3)
      let s1 := (rotr32 wm2 17) ^^^ (rotr32 wm2 19) ^^^ (wm2 >>> 10)
      w.push (add32 (add32 wm16 s0) (add32 wm7 s1)))
    w16

/-- One SHA-256 compression round. -/
def sha256Round (st : List Nat) (kw : Nat × Nat) : List Nat :=
  match st with
  | [a, b, c, d, e, f, g, h] =>
    let s1 := (rotr32 e 6) ^^^ (rotr32 e 11) ^^^ (rotr32 e 25)
    let ch := Nat.xor (Nat.land e f) (Nat.land (not32 e) g)
    let t1 := add32 (add32 h s1) (add32 ch (add32 kw.1 kw.2))
    let s0 := (rotr32 a 2) ^^^ (rotr32 a 13) ^^^ (rotr32 a 22)
    let mj := Nat.xor (Nat.xor (Nat.land a b) (Nat.land a c)) (Nat.land b c)
    let t2 := add32 s0 mj
    [add32 t1 t2, a, b, c, add32 d t1, e, f, g]
  | other => other

/-- SHA-256 compression of one 64-byte block into the running hash state. -/
def sha256Compress (hs : List Nat) (block : List Nat) : List Nat :=
  let w := sha256Schedule block
  let st := (sha256K.zip w.toList).foldl sha256Round hs
  List.zipWith add32 hs st

/-- SHA-256 digest (32 bytes) of a byte list. -/
def sha256Bytes (msg : List Nat) : List Nat :=
  let padded := sha256Pad msg
  let blocks := chunkParts (padded.length / 64) 64 padded
  ((blocks.foldl sha256Compress sha256H0).map bytesOfWord).flatten

/-- `sha256String` of `cmd/dagpool/server.go`:
`fmt.Sprintf("%x", sha256.Sum256([]byte(s)))`. -/
def sha256String (s : String) : String :=
  toHex (sha256Bytes (utf8Bytes s))

/-! ### CRC32 (hash/crc32, IEEE polynomial) -/

/-- One bit step of the reflected IEEE CRC32. -/
def crc32Round (c : Nat) : Nat :=
  if c % 2 = 1 then (c >>> 1) ^^^ 0xedb88320 else c >>> 1

/-- Fold one byte into the CRC accumulator. -/
def crc32Byte (c b : Nat) : Nat :=
  crc32Round^[8] (c ^^^ (b % 256))

/-- `crc32.ChecksumIEEE` over a byte list. -/
def crc32 (bs : List Nat) : Nat :=
  (bs.foldl crc32Byte 0xffffffff) ^^^ 0xffffffff

/-- `DagNode.fileID` of `cmd/dagpool/server.go`:
`crc32.ChecksumIEEE([]byte(key)) % CaskNum`. -/
def fileID (caskNum : Nat) (key : String) : Nat :=
  crc32 (utf8Bytes key) % caskNum

/-! ### Erasure codec

The erasure implementation (`NewErasure`, `EncodeData`, `DecodeDataBlocks`)
is not part of the source snapshot; it is modelled from the specification
(section 4.B). -/

/-- Length of each shard: `ceil(size / k)`. -/
def shardSize (k size : Nat) : Nat := (size + k - 1) / k

/-- Modelled from the spec: `Encode(data)` zero-pads `data` to a multiple of
`k`, splits it into `k` equal data shards and computes `m` parity shards,
each of length `ceil(size / k)`.  The spec leaves the parity generator an
implementation detail; parity content does not matter for the claims below,
so parity shards are modelled as zero shards. -/
def encodeData (k m : Nat) (data : List Nat) : List (List Nat) :=
  let s := shardSize k data.length
  let padded := data ++ List.replicate (k * s - data.length) 0
  chunkParts k s padded ++ List.replicate m (List.replicate s 0)

/-- Modelled from the spec: `Decode` reconstructs absent shards from at least
`k` present ones and verifies.  At its only call site (`DagNode.Get`) every
shard has already been read successfully, and with no absent shard the
reconstruction is the identity. -/
def decodeDataBlocks (shards : List (List Nat)) : List (List Nat) := shards

/-! ### DagNode (package `node` of `cmd/dagpool/server.go`) -/

deriving instance DecidableEq for Except

/-- Errors surfaced by the DagNode layer. -/
inductive DNErr where
  | notFound
  | caskPutErr
  deriving DecidableEq

/-- DagNode configuration: `(dataBlocks, parityBlocks)` and the per-store
cask modulus `CaskNum`. -/
structure NodeCfg where
  dataBlocks : Nat
  parityBlocks : Nat
  caskNum : Nat

/-- Number of members, `n = k + m`. -/
def NodeCfg.n (cfg : NodeCfg) : Nat := cfg.dataBlocks + cfg.parityBlocks

/-- State of one DagNode: the leveldb size table (`cid string → original
size`), which casks exist on each member, and each cask's key → value map.
A cask is addressed by `(member index, cask id)`. -/
structure NodeState where
  db : String → Option Nat
  caskExists : Nat → Nat → Bool
  casks : Nat → Nat → String → Option (List Nat)

/-- `d.db.Put(cid, len(rawData))`. -/
def dbPut (st : NodeState) (key : String) (size : Nat) : NodeState :=
  { st with db := fun k => if k = key then some size else st.db k }

/-- Cask creation through `createCaskChan` when `caskMap.Get` misses. -/
def ensureCask (st : NodeState) (member id : Nat) : NodeState :=
  { st with caskExists := fun i j =>
      if i = member ∧ j = id then true else st.caskExists i j }

/-- `cask.Put(keyCode, shard)`: store the shard bytes under the key. -/
def caskWrite (st : NodeState) (member id : Nat) (key : String) (v : List Nat) :
    NodeState :=
  { st with casks := fun i j k =>
      if i = member ∧ j = id ∧ k = key then some v else st.casks i j k }

/-- The member loop of `DagNode.Put`: for each member in order, make sure its
cask exists, then `cask.Put` the member's shard; on the first failing member
the loop breaks and the error is returned (`fail i` marks member `i`'s
`cask.Put` as failing). -/
def putLoop (fail : Nat → Bool) (id : Nat) (key : String)
    (shards : List (List Nat)) :
    Nat → Nat → NodeState → Except DNErr Unit × NodeState
  | _, 0, st => (Except.ok (), st)
  | i, cnt + 1, st =>
    let st1 := ensureCask st i id
    if fail i then (Except.error DNErr.caskPutErr, st1)
    else putLoop fail id key shards (i + 1) cnt
        (caskWrite st1 i id key (shards.getD i []))

/-- `DagNode.Put`: record the original size in the db, erasure-encode the
payload, and write shard `i` to member `i`'s cask under
`sha256String(cid)`. -/
def dagNodePut (cfg : NodeCfg) (fail : Nat → Bool) (st : NodeState)
    (cid : String) (data : List Nat) : Except DNErr Unit × NodeState :=
  let st1 := dbPut st cid data.length
  let keyCode := sha256String cid
  let shards := encodeData cfg.dataBlocks cfg.parityBlocks data
  let id := fileID cfg.caskNum keyCode
  putLoop fail id keyCode shards 0 cfg.n st1

/-- The member loop of `DagNode.Get`: read every member's shard in order,
failing with NotFound when a cask or key is absent. -/
def getLoop (id : Nat) (key : String) (st : NodeState) :
    Nat → Nat → Except DNErr (List (List Nat))
  | _, 0 => Except.ok []
  | i, cnt + 1 =>
    if st.caskExists i id = false then Except.error DNErr.notFound
    else
      match st.casks i id key with
      | none => Except.error DNErr.notFound
      | some v =>
        match getLoop id key st (i + 1) cnt with
        | Except.error e => Except.error e
        | Except.ok rest => Except.ok (v :: rest)

/-- `DagNode.Get`: read the original size from the db, read all member
shards, decode, join and truncate to the stored size. -/
def dagNodeGet (cfg : NodeCfg) (st : NodeState) (cid : String) :
    Except DNErr (List Nat) :=
  match st.db cid with
  | none => Except.error DNErr.notFound
  | some size =>
    let keyCode := sha256String cid
    let id := fileID cfg.caskNum keyCode
    match getLoop id keyCode st 0 cfg.n with
    | Except.error e => Except.error e
    | Except.ok merged => Except.ok ((decodeDataBlocks merged).flatten.take size)

/-- The member loop of `DagNode.GetSize`: `count = count + cask.Size(key)`
over every member (`cask.Size`, modelled from the spec, is the byte size of
the value stored under the key). -/
def sizeLoop (id : Nat) (key : String) (st : NodeState) :
    Nat → Nat → Except DNErr Nat
  | _, 0 => Except.ok 0
  | i, cnt + 1 =>
    if st.caskExists i id = false then Except.error DNErr.notFound
    else
      match st.casks i id key with
      | none => Except.error DNErr.notFound
      | some v =>
        match sizeLoop id key st (i + 1) cnt with
        | Except.error e => Except.error e
        | Except.ok rest => Except.ok (v.length + rest)

/-- `DagNode.GetSize`: the sum over all members of the member's stored size
for the key. -/
def dagNodeGetSize (cfg : NodeCfg) (st : NodeState) (cid : String) :
    Except DNErr Nat :=
  let keyCode := sha256String cid
  let id := fileID cfg.caskNum keyCode
  sizeLoop id keyCode st 0 cfg.n

/-! ### Concrete instances used by counterexamples and failing inputs -/

/-- The `(k, m) = (2, 1)` configuration of `TestDagNode`, default 256 casks. -/
def testCfg : NodeCfg := ⟨2, 1, 256⟩

/-- A DagNode with nothing stored. -/
def emptyNode : NodeState :=
  ⟨fun _ => none, fun _ _ => false, fun _ _ _ => none⟩

/-- A concrete cid string. -/
def testCid : String := "c1"

/-- The payload "123456" of `TestDagNode`, as bytes. -/
def testData : List Nat := [49, 50, 51, 52, 53, 54]

/-- All member writes succeed. -/
def noFail : Nat → Bool := fun _ => false

/-- Member 1's `cask.Put` fails; members 0 and 2 would succeed. -/
def failAt1 : Nat → Bool := fun i => i == 1

/-! ### User policies and the identity subsystem (`dpuser` / `upolicy`)

The `dpuser` and `upolicy` implementation files are not in the source
snapshot; they are modelled from the specification (section 6: policies
`read-only`, `write-only`, `read-write`). -/

/-- The read-only policy string. -/
def ReadOnlyPolicy : String := "read-only"

/-- The write-only policy string. -/
def WriteOnlyPolicy : String := "write-only"

/-- The read-write policy string. -/
def ReadWritePolicy : String := "read-write"

/-- A DagPool user record (`username, password, policy, capacity`). -/
structure DagPoolUser where
  username : String
  password : String
  policy : String
  capacity : Nat
  deriving DecidableEq

/-- Modelled from the spec: the `dpuser.IdentityUserSys` state — the root
(admin) credentials and the persisted user table. -/
structure Iam where
  rootUser : String
  rootPassword : String
  users : String → Option DagPoolUser

/-- Modelled from the spec: a `read-write` user may do everything, otherwise
the user's policy must be exactly the requested one. -/
def policyAllows (userPolicy requested : String) : Bool :=
  userPolicy == ReadWritePolicy || userPolicy == requested

/-- Modelled from the spec: `iam.CheckUserPolicy` — the root user passes
with the root password; any other user must exist, match the password, and
hold an allowing policy. -/
def checkUserPolicy (iam : Iam) (user pass policy : String) : Bool :=
  if user == iam.rootUser then pass == iam.rootPassword
  else
    match iam.users user with
    | some u => u.password == pass && policyAllows u.policy policy
    | none => false

/-- Modelled from the spec: `iam.CheckUser` — username/password check only. -/
def checkUser (iam : Iam) (user pass : String) : Bool :=
  if user == iam.rootUser then pass == iam.rootPassword
  else
    match iam.users user with
    | some u => u.password == pass
    | none => false

/-- Modelled from the spec: `iam.IsAdmin` — the username is the root user. -/
def isAdmin (iam : Iam) (user : String) : Bool := user == iam.rootUser

/-- Modelled from the spec: `iam.CheckAdmin` — root credentials check. -/
def checkAdmin (iam : Iam) (user pass : String) : Bool :=
  user == iam.rootUser && pass == iam.rootPassword

/-- Errors surfaced by the DagPool service layer. -/
inductive PoolErr where
  | accessDenied
  | notFound (key : String)
  | userAlreadyExists
  | refuseRemoveAdmin
  | refuseUpdateAdmin
  | userNotFound
  deriving DecidableEq

/-- Modelled from the spec: `iam.QueryUser` looks the username up in the
user table. -/
def iamQueryUser (iam : Iam) (name : String) : Except PoolErr DagPoolUser :=
  match iam.users name with
  | some u => Except.ok u
  | none => Except.error PoolErr.userNotFound

/-- Modelled from the spec: `iam.AddUser` stores the record under its
username. -/
def iamAddUser (iam : Iam) (u : DagPoolUser) : Iam :=
  { iam with users := fun n => if n = u.username then some u else iam.users n }

/-- Modelled from the spec: `iam.RemoveUser` deletes the record. -/
def iamRemoveUser (iam : Iam) (name : String) : Iam :=
  { iam with users := fun n => if n = name then none else iam.users n }

/-- Modelled from the spec: `iam.UpdateUser` overwrites the record. -/
def iamUpdateUser (iam : Iam) (u : DagPoolUser) : Iam := iamAddUser iam u

/-- `dagPoolService.AddUser` of `dag/pool/mulNode.go`: admin auth, then
reject the admin name and already-existing names, else store. -/
def dagPoolAddUser (iam : Iam) (newUser : DagPoolUser) (user pass : String) :
    Except PoolErr Unit × Iam :=
  if checkAdmin iam user pass = false then (Except.error PoolErr.accessDenied, iam)
  else if isAdmin iam newUser.username then (Except.error PoolErr.userAlreadyExists, iam)
  else
    match iam.users newUser.username with
    | some _ => (Except.error PoolErr.userAlreadyExists, iam)
    | none => (Except.ok (), iamAddUser iam newUser)

/-- `dagPoolService.RemoveUser` of `dag/pool/mulNode.go`: admin auth, then
refuse to remove the admin user. -/
def dagPoolRemoveUser (iam : Iam) (rmUser user pass : String) :
    Except PoolErr Unit × Iam :=
  if checkAdmin iam user pass = false then (Except.error PoolErr.accessDenied, iam)
  else if isAdmin iam rmUser then (Except.error PoolErr.refuseRemoveAdmin, iam)
  else (Except.ok (), iamRemoveUser iam rmUser)

/-- `dagPoolService.QueryUser` of `dag/pool/mulNode.go`: user auth; the
admin may query anyone, other callers only themselves. -/
def dagPoolQueryUser (iam : Iam) (qUser user pass : String) :
    Except PoolErr DagPoolUser :=
  if checkUser iam user pass = false then Except.error PoolErr.accessDenied
  else if isAdmin iam user then iamQueryUser iam qUser
  else if qUser ≠ user then Except.error PoolErr.accessDenied
  else iamQueryUser iam qUser

/-- `dagPoolService.UpdateUser` of `dag/pool/mulNode.go`: admin auth, refuse
the admin user, require the user to exist, then overwrite the non-empty
fields. -/
def dagPoolUpdateUser (iam : Iam) (uUser : DagPoolUser) (user pass : String) :
    Except PoolErr Unit × Iam :=
  if checkAdmin iam user pass = false then (Except.error PoolErr.accessDenied, iam)
  else if isAdmin iam uUser.username then (Except.error PoolErr.refuseUpdateAdmin, iam)
  else
    match iam.users uUser.username with
    | none => (Except.error PoolErr.userNotFound, iam)
    | some u =>
      (Except.ok (), iamUpdateUser iam
        { username := u.username
          password := if uUser.password ≠ "" then uUser.password else u.password
          policy := if uUser.policy ≠ "" then uUser.policy else u.policy
          capacity := if uUser.capacity ≠ 0 then uUser.capacity else u.capacity })

/-- Well-formedness of the identity table: every stored record's username is
the key it is stored under (`iam.AddUser` always stores a record under its
own username). -/
def IamWf (iam : Iam) : Prop :=
  ∀ n u, iam.users n = some u → u.username = n

/-- One user-administration call, as issued against the service. -/
inductive UserAdminOp where
  | addU (newUser : DagPoolUser) (user pass : String)
  | removeU (rmUser user pass : String)
  | updateU (uUser : DagPoolUser) (user pass : String)

/-- The identity-table state after one user-administration call. -/
def userAdminStep (iam : Iam) : UserAdminOp → Iam
  | UserAdminOp.addU nu u p => (dagPoolAddUser iam nu u p).2
  | UserAdminOp.removeU r u p => (dagPoolRemoveUser iam r u p).2
  | UserAdminOp.updateU uu u p => (dagPoolUpdateUser iam uu u p).2

/-! ### DagPool service block operations (`dag/pool/mulNode.go`) -/

/-- Pool-level state: the reference-count table, the cache set, the
abstracted DagNode storage (which cids have been stored), and whether the
GC has been signalled to interrupt. -/
structure PoolState where
  refCount : String → Nat
  cacheSet : String → Bool
  stored : String → Bool
  gcInterrupted : Bool

/-- Modelled from the spec: `RefCounter.Has` — true iff the refcount is at
least 1 (entries are removed when the count reaches 0). -/
def refCounterHas (st : PoolState) (key : String) : Bool :=
  st.refCount key != 0

/-- Modelled from the spec: `CacheSet.Has` — set membership. -/
def cacheSetHas (st : PoolState) (key : String) : Bool := st.cacheSet key

/-- Modelled from the spec: `CacheSet.Add` — set insertion. -/
def cacheSetAdd (st : PoolState) (key : String) : PoolState :=
  { st with cacheSet := fun k => if k = key then true else st.cacheSet k }

/-- `dagPoolService.Has`: pinned (refcounter) first, then cached. -/
def poolHas (st : PoolState) (key : String) : Bool :=
  if refCounterHas st key then true else cacheSetHas st key

/-- Modelled from the spec: `putBlock` routes the cid to its slot owner and
stores the block through `DagNode.Put`; abstracted at this layer to marking
the cid as stored. -/
def poolPutBlock (st : PoolState) (key : String) :
    Except PoolErr Unit × PoolState :=
  (Except.ok (),
   { st with stored := fun k => if k = key then true else st.stored k })

/-- Modelled from the spec: `RefCounter.IncrOrCreate(key, create_fn)` —
increment the refcount; when the previous count was zero run `create_fn`
exactly once, rolling back on its failure; drop the key from the cache
set. -/
def incrOrCreate (key : String)
    (create : PoolState → Except PoolErr Unit × PoolState) (st : PoolState) :
    Except PoolErr Unit × PoolState :=
  let prev := st.refCount key
  if prev = 0 then
    match create st with
    | (Except.error e, _) => (Except.error e, st)
    | (Except.ok _, st2) =>
      (Except.ok (),
       { st2 with
         refCount := fun k => if k = key then 1 else st2.refCount k,
         cacheSet := fun k => if k = key then false else st2.cacheSet k })
  else
    (Except.ok (),
     { st with
       refCount := fun k => if k = key then prev + 1 else st.refCount k,
       cacheSet := fun k => if k = key then false else st.cacheSet k })

/-- Modelled from the spec: `RefCounter.Decr` — decrement, removing the
entry when the count reaches zero. -/
def refCounterDecr (st : PoolState) (key : String) :
    Except PoolErr Unit × PoolState :=
  (Except.ok (),
   { st with refCount := fun k => if k = key then st.refCount key - 1 else st.refCount k })

/-- Modelled from the spec: `InterruptGC` signals the collector to abort its
current cycle. -/
def interruptGC (st : PoolState) : PoolState := { st with gcInterrupted := true }

/-- `dagPoolService.Add`: write auth; if `pin`, interrupt the GC and
`IncrOrCreate` with the block-storing callback; else store only when
`Has` is false and then add the cid to the cache set. `blockCid` is
`block.Cid().String()`. -/
def dagPoolAdd (iam : Iam) (st : PoolState) (blockCid user pass : String)
    (pin : Bool) : Except PoolErr Unit × PoolState :=
  if checkUserPolicy iam user pass WriteOnlyPolicy = false then
    (Except.error PoolErr.accessDenied, st)
  else if pin then
    incrOrCreate blockCid (fun s => poolPutBlock s blockCid) (interruptGC st)
  else if poolHas st blockCid = false then
    match poolPutBlock st blockCid with
    | (Except.error e, _) => (Except.error e, st)
    | (Except.ok _, st1) => (Except.ok (), cacheSetAdd st1 blockCid)
  else (Except.ok (), st)

/-- Modelled from the spec: `readBlock` fetches the block from the slot
owner's DagNode; abstracted to a lookup of the stored set. -/
def readBlock (st : PoolState) (key : String) : Except PoolErr Unit :=
  if st.stored key then Except.ok () else Except.error (PoolErr.notFound key)

/-- `dagPoolService.Get`: read auth; NotFound when neither pinned nor
cached; otherwise read the block. The second component counts how many
block reads reached storage. -/
def dagPoolGet (iam : Iam) (st : PoolState) (c user pass : String) :
    Except PoolErr Unit × Nat :=
  if checkUserPolicy iam user pass ReadOnlyPolicy = false then
    (Except.error PoolErr.accessDenied, 0)
  else if poolHas st c = false then (Except.error (PoolErr.notFound c), 0)
  else (readBlock st c, 1)

/-- `dagPoolService.GetSize`: same shape as `Get`, reading only the size.
The second component counts how many size reads reached storage. -/
def dagPoolGetSize (iam : Iam) (st : PoolState) (c user pass : String) :
    Except PoolErr Unit × Nat :=
  if checkUserPolicy iam user pass ReadOnlyPolicy = false then
    (Except.error PoolErr.accessDenied, 0)
  else if poolHas st c = false then (Except.error (PoolErr.notFound c), 0)
  else (readBlock st c, 1)

/-- `dagPoolService.Remove`: write auth; when `unpin`, decrement the
refcount; otherwise a no-op (actual deletion is GC's). -/
def dagPoolRemove (iam : Iam) (st : PoolState) (c user pass : String)
    (unpin : Bool) : Except PoolErr Unit × PoolState :=
  if checkUserPolicy iam user pass WriteOnlyPolicy = false then
    (Except.error PoolErr.accessDenied, st)
  else if unpin then refCounterDecr st c
  else (Except.ok (), st)

/-! ### Concrete pool instances for witnesses -/

/-- A read-write test user. -/
def aliceUser : DagPoolUser := ⟨"alice", "pw", "read-write", 0⟩

/-- A read-only test user. -/
def bobUser : DagPoolUser := ⟨"bob", "pw2", "read-only", 0⟩

/-- The root record, default credentials of the daemon. -/
def rootRec : DagPoolUser := ⟨"dagpool", "dagpool", "read-write", 0⟩

/-- A concrete identity state holding the root, alice and bob. -/
def testIam : Iam :=
  ⟨"dagpool", "dagpool",
   fun n =>
     if n = "alice" then some aliceUser
     else if n = "bob" then some bobUser
     else if n = "dagpool" then some rootRec else none⟩

/-- The pool state with nothing stored, pinned or cached. -/
def emptyPool : PoolState := ⟨fun _ => 0, fun _ => false, fun _ => false, false⟩

theorem sha256_test_vector :
    sha256String "abc"
      = "ba7816bf8f01cfea414140de5dae2223b00361a396177a9cb410ff61f20015ad" := by
  decide

theorem crc32_test_vector : crc32 (utf8Bytes "123456789") = 0xcbf43926 := by
  decide

theorem sha256_c1_eval :
    sha256String testCid
      = "d0f631ca1ddba8db3bcfcb9e057cdc98d0379f1bee00e75a545147a27dadd982" := by
  decide

theorem c1KeyBytes_split :
    utf8Bytes "d0f631ca1ddba8db3bcfcb9e057cdc98d0379f1bee00e75a545147a27dadd982"
      = utf8Bytes "d0f631ca" ++ utf8Bytes "1ddba8db" ++ utf8Bytes "3bcfcb9e" ++
        utf8Bytes "057cdc98" ++ utf8Bytes "d0379f1b" ++ utf8Bytes "ee00e75a" ++
        utf8Bytes "545147a2" ++ utf8Bytes "7dadd982" := by
  decide

theorem crc32_c1Key_eval :
    crc32 (utf8Bytes "d0f631ca1ddba8db3bcfcb9e057cdc98d0379f1bee00e75a545147a27dadd982")
      = 2452554027 := by
  have h1 : List.foldl crc32Byte 4294967295 (utf8Bytes "d0f631ca") = 629226406 := by decide
  have h2 : List.foldl crc32Byte 629226406 (utf8Bytes "1ddba8db") = 1464705095 := by decide
  have h3 : List.foldl crc32Byte 1464705095 (utf8Bytes "3bcfcb9e") = 2212739958 := by decide
  have h4 : List.foldl crc32Byte 2212739958 (utf8Bytes "057cdc98") = 1324606250 := by decide
  have h5 : List.foldl crc32Byte 1324606250 (utf8Bytes "d0379f1b") = 3884864114 := by decide
  have h6 : List.foldl crc32Byte 3884864114 (utf8Bytes "ee00e75a") = 3052869118 := by decide
  have h7 : List.foldl crc32Byte 3052869118 (utf8Bytes "545147a2") = 3155973921 := by decide
  have h8 : List.foldl crc32Byte 3155973921 (utf8Bytes "7dadd982") = 1842413268 := by decide
  rw [crc32, c1KeyBytes_split]
  rw [List.foldl_append, List.foldl_append, List.foldl_append, List.foldl_append,
      List.foldl_append, List.foldl_append, List.foldl_append]
  rw [show (0xffffffff : Nat) = 4294967295 from rfl]
  rw [h1, h2, h3, h4, h5, h6, h7, h8]
  decide

theorem fileID_c1_eval :
    fileID 256 "d0f631ca1ddba8db3bcfcb9e057cdc98d0379f1bee00e75a545147a27dadd982"
      = 43 := by
  rw [fileID, crc32_c1Key_eval]

/-- Evaluation helper: on the `TestDagNode` input, `DagNode.Put` with all
member writes succeeding returns success. -/
theorem dagnode_put_c1_ok :
    (dagNodePut testCfg noFail emptyNode testCid testData).1 = Except.ok () := by
  simp only [dagNodePut, testCfg, NodeCfg.n, sha256_c1_eval, fileID_c1_eval]
  decide

/-! ### Pool-layer claims -/

/-- Claim C5: `Has(k)` returns true if and only if the reference counter
holds `k` with refcount at least 1 or `k` is a member of the cache set. -/
theorem dagpool_has_iff (st : PoolState) (key : String) :
    poolHas st key = true ↔ (1 ≤ st.refCount key ∨ st.cacheSet key = true) := by
  by_cases h : st.refCount key = 0
  · simp [poolHas, refCounterHas, cacheSetHas, h]
  · simp [poolHas, refCounterHas, cacheSetHas, h, Nat.one_le_iff_ne_zero]

/-- Claim C6: with valid read credentials, `Get` and `GetSize` on a cid that
is neither pinned nor cached return NotFound and perform no storage read. -/
theorem dagpool_get_missing_notfound_noread
    (iam : Iam) (st : PoolState) (c user pass : String)
    (hauth : checkUserPolicy iam user pass ReadOnlyPolicy = true)
    (hrc : st.refCount c = 0) (hcs : st.cacheSet c = false) :
    dagPoolGet iam st c user pass = (Except.error (PoolErr.notFound c), 0) ∧
    dagPoolGetSize iam st c user pass = (Except.error (PoolErr.notFound c), 0) := by
  have hhas : poolHas st c = false := by
    simp [poolHas, refCounterHas, cacheSetHas, hrc, hcs]
  constructor <;> simp [dagPoolGet, dagPoolGetSize, hauth, hhas]

theorem dagpool_get_missing_notfound_noread_witness :
    dagPoolGet testIam emptyPool "c1" "bob" "pw2"
      = (Except.error (PoolErr.notFound "c1"), 0) ∧
    dagPoolGetSize testIam emptyPool "c1" "bob" "pw2"
      = (Except.error (PoolErr.notFound "c1"), 0) :=
  dagpool_get_missing_notfound_noread testIam emptyPool "c1" "bob" "pw2"
    (by decide) rfl rfl

/-- Claim C7: when the credentials or policy check fails, `Add`, `Get`,
`GetSize` and `Remove` return AccessDenied before performing any action and
leave the state unchanged. -/
theorem dagpool_access_denied_unchanged
    (iam : Iam) (st : PoolState) (b c user pass : String) (pin unpin : Bool) :
    (checkUserPolicy iam user pass WriteOnlyPolicy = false →
       dagPoolAdd iam st b user pass pin = (Except.error PoolErr.accessDenied, st) ∧
       dagPoolRemove iam st c user pass unpin = (Except.error PoolErr.accessDenied, st)) ∧
    (checkUserPolicy iam user pass ReadOnlyPolicy = false →
       dagPoolGet iam st c user pass = (Except.error PoolErr.accessDenied, 0) ∧
       dagPoolGetSize iam st c user pass = (Except.error PoolErr.accessDenied, 0)) := by
  constructor
  · intro h
    constructor <;> simp [dagPoolAdd, dagPoolRemove, h]
  · intro h
    constructor <;> simp [dagPoolGet, dagPoolGetSize, h]

theorem dagpool_access_denied_unchanged_witness :
    dagPoolAdd testIam emptyPool "c1" "eve" "x" true
      = (Except.error PoolErr.accessDenied, emptyPool) ∧
    dagPoolRemove testIam emptyPool "c1" "eve" "x" true
      = (Except.error PoolErr.accessDenied, emptyPool) ∧
    dagPoolGet testIam emptyPool "c1" "eve" "x"
      = (Except.error PoolErr.accessDenied, 0) ∧
    dagPoolGetSize testIam emptyPool "c1" "eve" "x"
      = (Except.error PoolErr.accessDenied, 0) := by
  have h := dagpool_access_denied_unchanged testIam emptyPool "c1" "c1" "eve" "x" true true
  exact ⟨(h.1 (by decide)).1, (h.1 (by decide)).2, (h.2 (by decide)).1, (h.2 (by decide)).2⟩

/-- Claim C1: with valid write credentials, `Add(block, pin)`: when `pin`,
the GC is interrupted and `IncrOrCreate` runs on the block's cid with the
block-storing creator (refcount goes up by one; the block is stored exactly
when the prior count was zero; the cid leaves the cache set); when not
`pin`, the block is stored only when `Has` is false, after which the cid is
added to the cache set, and the call is a successful no-op when the cid is
already present. -/
theorem dagpool_add_spec
    (iam : Iam) (st : PoolState) (b user pass : String)
    (hauth : checkUserPolicy iam user pass WriteOnlyPolicy = true) :
    ((dagPoolAdd iam st b user pass true).1 = Except.ok () ∧
     (dagPoolAdd iam st b user pass true).2.gcInterrupted = true ∧
     (dagPoolAdd iam st b user pass true).2.refCount b = st.refCount b + 1 ∧
     (st.refCount b = 0 → (dagPoolAdd iam st b user pass true).2.stored b = true) ∧
     (st.refCount b ≠ 0 →
       (dagPoolAdd iam st b user pass true).2.stored = st.stored) ∧
     (dagPoolAdd iam st b user pass true).2.cacheSet b = false) ∧
    (poolHas st b = false →
       (dagPoolAdd iam st b user pass false).1 = Except.ok () ∧
       (dagPoolAdd iam st b user pass false).2.stored b = true ∧
       (dagPoolAdd iam st b user pass false).2.cacheSet b = true ∧
       (dagPoolAdd iam st b user pass false).2.refCount = st.refCount) ∧
    (poolHas st b = true →
       dagPoolAdd iam st b user pass false = (Except.ok (), st)) := by
  refine ⟨?_, ?_, ?_⟩
  · by_cases h0 : st.refCount b = 0
    · simp [dagPoolAdd, hauth, incrOrCreate, interruptGC, poolPutBlock, h0]
    · simp [dagPoolAdd, hauth, incrOrCreate, interruptGC, poolPutBlock, h0]
  · intro hhas
    simp [dagPoolAdd, hauth, hhas, poolPutBlock, cacheSetAdd]
  · intro hhas
    simp [dagPoolAdd, hauth, hhas]

theorem dagpool_add_spec_witness :
    (dagPoolAdd testIam emptyPool "c1" "alice" "pw" true).2.refCount "c1"
      = emptyPool.refCount "c1" + 1 :=
  ((dagpool_add_spec testIam emptyPool "c1" "alice" "pw" (by decide)).1).2.2.1

/-- Claim C10: an authenticated non-admin caller may query only itself
(`AccessDenied` when the queried name differs, the user record when it
matches); an admin caller may query any username. -/
theorem dagpool_query_user_scope
    (iam : Iam) (q user pass : String)
    (hauth : checkUser iam user pass = true) :
    (isAdmin iam user = false →
       (q ≠ user → dagPoolQueryUser iam q user pass = Except.error PoolErr.accessDenied) ∧
       (q = user → dagPoolQueryUser iam q user pass = iamQueryUser iam q)) ∧
    (isAdmin iam user = true →
       dagPoolQueryUser iam q user pass = iamQueryUser iam q) := by
  constructor
  · intro hadm
    constructor
    · intro hne
      simp [dagPoolQueryUser, hauth, hadm, hne]
    · intro he
      subst he
      simp [dagPoolQueryUser, hauth, hadm]
  · intro hadm
    simp [dagPoolQueryUser, hauth, hadm]

theorem dagpool_query_user_scope_witness :
    dagPoolQueryUser testIam "bob" "alice" "pw" = Except.error PoolErr.accessDenied ∧
    dagPoolQueryUser testIam "alice" "alice" "pw" = iamQueryUser testIam "alice" ∧
    dagPoolQueryUser testIam "bob" "dagpool" "dagpool" = iamQueryUser testIam "bob" := by
  refine ⟨?_, ?_, ?_⟩
  · exact ((dagpool_query_user_scope testIam "bob" "alice" "pw" (by decide)).1
      (by decide)).1 (by decide)
  · exact ((dagpool_query_user_scope testIam "alice" "alice" "pw" (by decide)).1
      (by decide)).2 rfl
  · exact (dagpool_query_user_scope testIam "bob" "dagpool" "dagpool" (by decide)).2
      (by decide)

/-! ### Admin-user invariant (claim C9) -/

theorem userAdminStep_root_fields (iam : Iam) (op : UserAdminOp) :
    (userAdminStep iam op).rootUser = iam.rootUser ∧
    (userAdminStep iam op).rootPassword = iam.rootPassword := by
  cases op <;>
    simp only [userAdminStep, dagPoolAddUser, dagPoolRemoveUser, dagPoolUpdateUser,
      iamAddUser, iamRemoveUser, iamUpdateUser] <;>
    (repeat' split) <;> exact ⟨rfl, rfl⟩

theorem userAdminStep_preserves_root (iam : Iam) (op : UserAdminOp)
    (r : DagPoolUser) (hwf : IamWf iam) (hr : iam.users iam.rootUser = some r) :
    (userAdminStep iam op).users iam.rootUser = some r ∧
    IamWf (userAdminStep iam op) := by
  cases op with
  | addU nu u p =>
    simp only [userAdminStep, dagPoolAddUser]
    split
    · exact ⟨hr, hwf⟩
    · split
      · exact ⟨hr, hwf⟩
      · rename_i hadm
        split
        · exact ⟨hr, hwf⟩
        · have hne : nu.username ≠ iam.rootUser := by
            simpa [isAdmin] using hadm
          constructor
          · simp only [iamAddUser]
            rw [if_neg (fun h => hne h.symm)]
            exact hr
          · intro n x hx
            simp only [iamAddUser] at hx
            by_cases hn : n = nu.username
            · rw [if_pos hn] at hx
              cases hx
              exact hn.symm
            · rw [if_neg hn] at hx
              exact hwf n x hx
  | removeU rm u p =>
    simp only [userAdminStep, dagPoolRemoveUser]
    split
    · exact ⟨hr, hwf⟩
    · split
      · exact ⟨hr, hwf⟩
      · rename_i hadm
        have hne : rm ≠ iam.rootUser := by
          simpa [isAdmin] using hadm
        constructor
        · simp only [iamRemoveUser]
          rw [if_neg (fun h => hne h.symm)]
          exact hr
        · intro n x hx
          simp only [iamRemoveUser] at hx
          by_cases hn : n = rm
          · rw [if_pos hn] at hx
            cases hx
          · rw [if_neg hn] at hx
            exact hwf n x hx
  | updateU uu u p =>
    simp only [userAdminStep, dagPoolUpdateUser]
    split
    · exact ⟨hr, hwf⟩
    · split
      · exact ⟨hr, hwf⟩
      · rename_i hadm
        have hne : uu.username ≠ iam.rootUser := by
          simpa [isAdmin] using hadm
        split
        · exact ⟨hr, hwf⟩
        · rename_i urec hurec
          have huname : urec.username = uu.username := hwf _ _ hurec
          constructor
          · simp only [iamUpdateUser, iamAddUser, huname]
            rw [if_neg (fun h => hne h.symm)]
            exact hr
          · intro n x hx
            simp only [iamUpdateUser, iamAddUser, huname] at hx
            by_cases hn : n = uu.username
            · rw [if_pos hn] at hx
              cases hx
              simpa [huname] using hn.symm
            · rw [if_neg hn] at hx
              exact hwf n x hx

/-- Claim C9: the admin (root) user always exists with unchanged
credentials: any sequence of user-administration operations preserves the
root credentials and the root's user record; `AddUser` rejects a new user
named like the admin or like an existing user, leaving the table unchanged;
`RemoveUser` and `UpdateUser` refuse to touch the admin user. -/
theorem admin_user_protected :
    (∀ (ops : List UserAdminOp) (iam : Iam) (r : DagPoolUser),
        IamWf iam → iam.users iam.rootUser = some r →
        (ops.foldl userAdminStep iam).rootUser = iam.rootUser ∧
        (ops.foldl userAdminStep iam).rootPassword = iam.rootPassword ∧
        (ops.foldl userAdminStep iam).users iam.rootUser = some r) ∧
    (∀ (iam : Iam) (nu : DagPoolUser) (u p : String),
        (nu.username = iam.rootUser ∨ (iam.users nu.username).isSome = true) →
        (dagPoolAddUser iam nu u p).1 ≠ Except.ok () ∧
        (dagPoolAddUser iam nu u p).2 = iam) ∧
    (∀ (iam : Iam) (u p : String),
        (dagPoolRemoveUser iam iam.rootUser u p).1 ≠ Except.ok () ∧
        (dagPoolRemoveUser iam iam.rootUser u p).2 = iam) ∧
    (∀ (iam : Iam) (uu : DagPoolUser) (u p : String),
        uu.username = iam.rootUser →
        (dagPoolUpdateUser iam uu u p).1 ≠ Except.ok () ∧
        (dagPoolUpdateUser iam uu u p).2 = iam) := by
  refine ⟨?_, ?_, ?_, ?_⟩
  · intro ops
    induction ops with
    | nil => intro iam r _ hr; exact ⟨rfl, rfl, hr⟩
    | cons op rest ih =>
      intro iam r hwf hr
      have hstep := userAdminStep_preserves_root iam op r hwf hr
      have hroot := userAdminStep_root_fields iam op
      have := ih (userAdminStep iam op) r hstep.2 (hroot.1.symm ▸ hstep.1)
      refine ⟨?_, ?_, ?_⟩
      · rw [List.foldl_cons, this.1, hroot.1]
      · rw [List.foldl_cons, this.2.1, hroot.2]
      · have h3 := this.2.2
        rw [hroot.1] at h3
        rw [List.foldl_cons]
        exact h3
  · intro iam nu u p hcase
    simp only [dagPoolAddUser]
    split
    · exact ⟨by simp, rfl⟩
    · split
      · exact ⟨by simp, rfl⟩
      · rename_i hadm
        have hne : nu.username ≠ iam.rootUser := by
          simpa [isAdmin] using hadm
        split
        · exact ⟨by simp, rfl⟩
        · rename_i hnone
          rcases hcase with hcase | hcase
          · exact absurd hcase hne
          · rw [hnone] at hcase
            cases hcase
  · intro iam u p
    simp only [dagPoolRemoveUser]
    split
    · exact ⟨by simp, rfl⟩
    · split
      · exact ⟨by simp, rfl⟩
      · rename_i hadm
        exact absurd (by simp [isAdmin]) hadm
  · intro iam uu u p hroot
    simp only [dagPoolUpdateUser]
    split
    · exact ⟨by simp, rfl⟩
    · split
      · exact ⟨by simp, rfl⟩
      · rename_i hadm
        have : isAdmin iam uu.username = true := by simp [isAdmin, hroot]
        exact absurd this hadm

theorem testIam_wf : IamWf testIam := by
  intro n u h
  simp only [testIam] at h
  split at h
  next h1 => rw [h1]; cases h; rfl
  next h1 =>
    split at h
    next h2 => rw [h2]; cases h; rfl
    next h2 =>
      split at h
      next h3 => rw [h3]; cases h; rfl
      next h3 => cases h

theorem admin_user_protected_witness :
    (([UserAdminOp.removeU "dagpool" "dagpool" "dagpool"].foldl
        userAdminStep testIam).users "dagpool" = some rootRec) ∧
    (dagPoolRemoveUser testIam "dagpool" "dagpool" "dagpool").2 = testIam ∧
    (dagPoolAddUser testIam rootRec "dagpool" "dagpool").2 = testIam := by
  refine ⟨?_, ?_, ?_⟩
  · exact (admin_user_protected.1
      [UserAdminOp.removeU "dagpool" "dagpool" "dagpool"] testIam rootRec
      testIam_wf (by decide)).2.2
  · exact (admin_user_protected.2.2.1 testIam "dagpool" "dagpool").2
  · exact (admin_user_protected.2.1 testIam rootRec "dagpool" "dagpool"
      (Or.inl rfl)).2

/-! ### DagNode layer lemmas -/

theorem putLoop_db (fail : Nat → Bool) (id : Nat) (key : String)
    (shards : List (List Nat)) :
    ∀ (cnt i : Nat) (st : NodeState),
      ((putLoop fail id key shards i cnt st).2).db = st.db := by
  intro cnt
  induction cnt with
  | zero => intro i st; rfl
  | succ c ih =>
    intro i st
    simp only [putLoop]
    split
    · rfl
    · exact ih (i + 1) _

theorem putLoop_member_lower (fail : Nat → Bool) (id : Nat) (key : String)
    (shards : List (List Nat)) :
    ∀ (cnt i : Nat) (st : NodeState) (t : Nat), t < i →
      ((putLoop fail id key shards i cnt st).2).caskExists t = st.caskExists t ∧
      ((putLoop fail id key shards i cnt st).2).casks t = st.casks t := by
  intro cnt
  induction cnt with
  | zero => intro i st t ht; exact ⟨rfl, rfl⟩
  | succ c ih =>
    intro i st t ht
    have hne : ¬(t = i) := Nat.ne_of_lt ht
    simp only [putLoop]
    split
    · constructor
      · funext j
        simp only [ensureCask]
        rw [if_neg (fun hc => hne hc.1)]
      · rfl
    · have h2 := ih (i + 1) (caskWrite (ensureCask st i id) i id key
        (shards.getD i [])) t (Nat.lt_succ_of_lt ht)
      constructor
      · rw [h2.1]
        funext j
        simp only [caskWrite, ensureCask]
        rw [if_neg (fun hc => hne hc.1)]
      · rw [h2.2]
        funext j k
        simp only [caskWrite, ensureCask]
        rw [if_neg (fun hc => hne hc.1)]

theorem putLoop_ok (fail : Nat → Bool) (id : Nat) (key : String)
    (shards : List (List Nat)) :
    ∀ (cnt i : Nat) (st : NodeState),
      (∀ t, i ≤ t → t < i + cnt → fail t = false) →
      (putLoop fail id key shards i cnt st).1 = Except.ok () ∧
      (∀ t, i ≤ t → t < i + cnt →
        ((putLoop fail id key shards i cnt st).2).caskExists t id = true ∧
        ((putLoop fail id key shards i cnt st).2).casks t id key
          = some (shards.getD t [])) := by
  intro cnt
  induction cnt with
  | zero =>
    intro i st _
    exact ⟨rfl, fun t ht1 ht2 => absurd ht2 (by omega)⟩
  | succ c ih =>
    intro i st h
    have hfi : fail i = false := h i (le_refl i) (by omega)
    simp only [putLoop, hfi, Bool.false_eq_true, if_false]
    have ihres := ih (i + 1)
      (caskWrite (ensureCask st i id) i id key (shards.getD i []))
      (fun t ht1 ht2 => h t (by omega) (by omega))
    refine ⟨ihres.1, ?_⟩
    intro t ht1 ht2
    by_cases hti : t = i
    · subst hti
      have hlow := putLoop_member_lower fail id key shards c (t + 1)
        (caskWrite (ensureCask st t id) t id key (shards.getD t [])) t (by omega)
      constructor
      · rw [hlow.1]
        simp [caskWrite, ensureCask]
      · rw [hlow.2]
        simp [caskWrite]
    · exact ihres.2 t (by omega) (by omega)

theorem putLoop_fail_spec (fail : Nat → Bool) (id : Nat) (key : String)
    (shards : List (List Nat)) :
    ∀ (cnt i j : Nat) (st : NodeState),
      i ≤ j → j < i + cnt → fail j = true →
      (∀ t, i ≤ t → t < j → fail t = false) →
      (putLoop fail id key shards i cnt st).1 = Except.error DNErr.caskPutErr ∧
      (∀ t, i ≤ t → t < j →
        ((putLoop fail id key shards i cnt st).2).casks t id key
          = some (shards.getD t [])) ∧
      (∀ t i2 k2, j ≤ t →
        ((putLoop fail id key shards i cnt st).2).casks t i2 k2
          = st.casks t i2 k2) := by
  intro cnt
  induction cnt with
  | zero => intro i j st h1 h2 _ _; exact absurd h2 (by omega)
  | succ c ih =>
    intro i j st hij hjlt hfj hbefore
    by_cases hji : j = i
    · subst hji
      have hrw : putLoop fail id key shards j (c + 1) st
          = (Except.error DNErr.caskPutErr, ensureCask st j id) := by
        simp [putLoop, hfj]
      rw [hrw]
      refine ⟨rfl, ?_, ?_⟩
      · intro t ht1 ht2; exact absurd ht2 (by omega)
      · intro t i2 k2 _; rfl
    · have hfi : fail i = false := hbefore i (le_refl i) (by omega)
      simp only [putLoop, hfi, Bool.false_eq_true, if_false]
      have ihres := ih (i + 1) j
        (caskWrite (ensureCask st i id) i id key (shards.getD i []))
        (by omega) (by omega) hfj (fun t h1 h2 => hbefore t (by omega) h2)
      refine ⟨ihres.1, ?_, ?_⟩
      · intro t ht1 ht2
        by_cases hti : t = i
        · subst hti
          have hlow := putLoop_member_lower fail id key shards c (t + 1)
            (caskWrite (ensureCask st t id) t id key (shards.getD t [])) t
            (by omega)
          rw [hlow.2]
          simp [caskWrite]
        · exact ihres.2.1 t (by omega) ht2
      · intro t i2 k2 htj
        rw [ihres.2.2 t i2 k2 htj]
        simp only [caskWrite, ensureCask]
        rw [if_neg (fun hc => absurd hc.1 (by omega))]

theorem putLoop_ok_fail_false (fail : Nat → Bool) (id : Nat) (key : String)
    (shards : List (List Nat)) :
    ∀ (cnt i : Nat) (st : NodeState),
      (putLoop fail id key shards i cnt st).1 = Except.ok () →
      ∀ t, i ≤ t → t < i + cnt → fail t = false := by
  intro cnt
  induction cnt with
  | zero => intro i st _ t h1 h2; exact absurd h2 (by omega)
  | succ c ih =>
    intro i st h t h1 h2
    by_cases hfi : fail i = true
    · simp [putLoop, hfi] at h
    · have hfi' : fail i = false := by
        revert hfi; cases fail i <;> simp
      by_cases hti : t = i
      · subst hti; exact hfi'
      · simp only [putLoop, hfi', Bool.false_eq_true, if_false] at h
        exact ih (i + 1) _ h t (by omega) (by omega)

theorem getLoop_spec (id : Nat) (key : String) (st : NodeState)
    (g : Nat → List Nat) :
    ∀ (cnt i : Nat),
      (∀ t, i ≤ t → t < i + cnt →
        st.caskExists t id = true ∧ st.casks t id key = some (g t)) →
      getLoop id key st i cnt = Except.ok ((List.range' i cnt).map g) := by
  intro cnt
  induction cnt with
  | zero => intro i _; rfl
  | succ c ih =>
    intro i h
    have hi := h i (le_refl i) (by omega)
    simp only [getLoop, hi.1, hi.2]
    rw [ih (i + 1) (fun t h1 h2 => h t (by omega) (by omega))]
    simp [List.range'_succ]

theorem range'_map_getD {α : Type} (d : α) :
    ∀ (l pre : List α),
      (List.range' pre.length l.length).map (fun t => (pre ++ l).getD t d) = l := by
  intro l
  induction l with
  | nil => intro pre; rfl
  | cons a tl ih =>
    intro pre
    rw [List.length_cons, List.range'_succ, List.map_cons]
    have h1 : (pre ++ a :: tl).getD pre.length d = a := by
      rw [List.getD_append_right _ _ _ _ (le_refl _)]
      simp
    rw [h1]
    rw [List.append_cons]
    have h3 : pre.length + 1 = (pre ++ [a]).length := by simp
    rw [h3]
    rw [ih (pre ++ [a])]

theorem map_getD_self {α : Type} (l : List α) (d : α) :
    (List.range' 0 l.length).map (fun t => l.getD t d) = l := by
  have := range'_map_getD d l []
  simpa using this

theorem chunkParts_length {α : Type} :
    ∀ (n s : Nat) (l : List α), (chunkParts n s l).length = n := by
  intro n
  induction n with
  | zero => intro s l; rfl
  | succ c ih => intro s l; simp [chunkParts, ih]

theorem chunkParts_flatten {α : Type} :
    ∀ (n s : Nat) (l : List α), l.length = n * s → (chunkParts n s l).flatten = l := by
  intro n
  induction n with
  | zero =>
    intro s l h
    rw [Nat.zero_mul] at h
    rw [List.length_eq_zero.mp h]
    rfl
  | succ c ih =>
    intro s l h
    rw [Nat.succ_mul] at h
    simp only [chunkParts, List.flatten_cons]
    rw [ih s (l.drop s) (by rw [List.length_drop]; omega)]
    exact List.take_append_drop s l

theorem size_le_padded (k size : Nat) (hk : 0 < k) :
    size ≤ k * shardSize k size := by
  unfold shardSize
  have h1 : k * ((size + k - 1) / k) + (size + k - 1) % k = size + k - 1 :=
    Nat.div_add_mod _ _
  have h2 : (size + k - 1) % k < k := Nat.mod_lt _ hk
  set p := k * ((size + k - 1) / k) with hp
  set r := (size + k - 1) % k with hr
  omega

theorem encodeData_flatten_take (k m : Nat) (data : List Nat) (hk : 0 < k) :
    ((encodeData k m data).flatten).take data.length = data := by
  unfold encodeData
  set s := shardSize k data.length with hs
  have hle : data.length ≤ k * s := size_le_padded k data.length hk
  have hlen : (data ++ List.replicate (k * s - data.length) 0).length = k * s := by
    simp only [List.length_append, List.length_replicate]
    omega
  rw [List.flatten_append]
  rw [chunkParts_flatten k s _ hlen]
  rw [List.take_append_of_le_length (by rw [hlen]; exact hle)]
  exact List.take_left data _

theorem encodeData_length (k m : Nat) (data : List Nat) :
    (encodeData k m data).length = k + m := by
  unfold encodeData
  simp [chunkParts_length]

/-! ### DagNode layer claims -/

theorem dagNodePut_unfold (cfg : NodeCfg) (fail : Nat → Bool) (st : NodeState)
    (cid : String) (data : List Nat) :
    dagNodePut cfg fail st cid data
      = putLoop fail (fileID cfg.caskNum (sha256String cid)) (sha256String cid)
          (encodeData cfg.dataBlocks cfg.parityBlocks data) 0 cfg.n
          (dbPut st cid data.length) := rfl

/-- Claim C3: after a successful `DagNode.Put` of a payload, `DagNode.Get`
of its cid returns the payload byte for byte: erasure decode after encode is
the identity on the zero-padded data and the stored original size trims the
padding on read. -/
theorem dagnode_put_get_roundtrip
    (cfg : NodeCfg) (fail : Nat → Bool) (st : NodeState) (cid : String)
    (data : List Nat) (hk : 0 < cfg.dataBlocks)
    (hok : (dagNodePut cfg fail st cid data).1 = Except.ok ()) :
    dagNodeGet cfg (dagNodePut cfg fail st cid data).2 cid = Except.ok data ∧
    decodeDataBlocks (encodeData cfg.dataBlocks cfg.parityBlocks data)
      = encodeData cfg.dataBlocks cfg.parityBlocks data ∧
    ((encodeData cfg.dataBlocks cfg.parityBlocks data).flatten).take data.length
      = data := by
  refine ⟨?_, rfl, encodeData_flatten_take _ _ _ hk⟩
  rw [dagNodePut_unfold] at hok ⊢
  have hfails := putLoop_ok_fail_false fail
    (fileID cfg.caskNum (sha256String cid)) (sha256String cid)
    (encodeData cfg.dataBlocks cfg.parityBlocks data) cfg.n 0
    (dbPut st cid data.length) hok
  have hput := putLoop_ok fail (fileID cfg.caskNum (sha256String cid))
    (sha256String cid) (encodeData cfg.dataBlocks cfg.parityBlocks data)
    cfg.n 0 (dbPut st cid data.length) hfails
  have hdb : ((putLoop fail (fileID cfg.caskNum (sha256String cid))
      (sha256String cid) (encodeData cfg.dataBlocks cfg.parityBlocks data)
      0 cfg.n (dbPut st cid data.length)).2).db cid = some data.length := by
    rw [putLoop_db]
    simp [dbPut]
  have hget := getLoop_spec (fileID cfg.caskNum (sha256String cid))
    (sha256String cid)
    ((putLoop fail (fileID cfg.caskNum (sha256String cid)) (sha256String cid)
      (encodeData cfg.dataBlocks cfg.parityBlocks data) 0 cfg.n
      (dbPut st cid data.length)).2)
    (fun t => (encodeData cfg.dataBlocks cfg.parityBlocks data).getD t [])
    cfg.n 0 (fun t h1 h2 => hput.2 t h1 h2)
  have hmap : (List.range' 0 cfg.n).map
      (fun t => (encodeData cfg.dataBlocks cfg.parityBlocks data).getD t [])
        = encodeData cfg.dataBlocks cfg.parityBlocks data := by
    have hlenS : (encodeData cfg.dataBlocks cfg.parityBlocks data).length = cfg.n :=
      encodeData_length _ _ _
    rw [← hlenS]
    exact map_getD_self _ []
  rw [hmap] at hget
  simp only [dagNodeGet, hdb, hget, decodeDataBlocks]
  rw [encodeData_flatten_take _ _ _ hk]

theorem dagnode_put_get_roundtrip_witness :
    dagNodeGet testCfg (dagNodePut testCfg noFail emptyNode testCid testData).2
      testCid = Except.ok testData :=
  (dagnode_put_get_roundtrip testCfg noFail emptyNode testCid testData
    (by decide) dagnode_put_c1_ok).1

/-- Claim C2 counterexample: with `(k, m) = (2, 1)` and member 1's shard
write failing, `DagNode.Put` of the block "123456" fails, yet member 0's
shard is left in its cask and the size entry is left in the db — no
best-effort Delete cleans up the members that had already succeeded. -/
theorem dagnode_put_no_cleanup_cex :
    (dagNodePut testCfg failAt1 emptyNode testCid testData).1
      = Except.error DNErr.caskPutErr ∧
    (dagNodePut testCfg failAt1 emptyNode testCid testData).2.casks 0
        (fileID 256 (sha256String testCid)) (sha256String testCid)
      = some [49, 50, 51] ∧
    (dagNodePut testCfg failAt1 emptyNode testCid testData).2.db testCid
      = some 6 := by
  refine ⟨?_, ?_, ?_⟩ <;>
    · simp only [dagNodePut, testCfg, NodeCfg.n, sha256_c1_eval, fileID_c1_eval]
      decide

/-- Claim C2 as amended: when the first failing member is `j`, `DagNode.Put`
stops there and returns the error; no Delete is issued — the shards already
written to members before `j` and the stored size entry remain, and members
from `j` on are untouched. -/
theorem dagnode_put_first_failure_residual
    (cfg : NodeCfg) (fail : Nat → Bool) (st : NodeState) (cid : String)
    (data : List Nat) (j : Nat) (hj : j < cfg.n) (hfj : fail j = true)
    (hbefore : ∀ t, t < j → fail t = false) :
    (dagNodePut cfg fail st cid data).1 = Except.error DNErr.caskPutErr ∧
    (dagNodePut cfg fail st cid data).2.db cid = some data.length ∧
    (∀ t, t < j →
      (dagNodePut cfg fail st cid data).2.casks t
          (fileID cfg.caskNum (sha256String cid)) (sha256String cid)
        = some ((encodeData cfg.dataBlocks cfg.parityBlocks data).getD t [])) ∧
    (∀ t i2 k2, j ≤ t →
      (dagNodePut cfg fail st cid data).2.casks t i2 k2 = st.casks t i2 k2) := by
  rw [dagNodePut_unfold]
  have hspec := putLoop_fail_spec fail (fileID cfg.caskNum (sha256String cid))
    (sha256String cid) (encodeData cfg.dataBlocks cfg.parityBlocks data)
    cfg.n 0 j (dbPut st cid data.length) (by omega) (by omega) hfj
    (fun t _ h2 => hbefore t h2)
  refine ⟨hspec.1, ?_, ?_, ?_⟩
  · rw [putLoop_db]
    simp [dbPut]
  · exact fun t ht => hspec.2.1 t (Nat.zero_le t) ht
  · exact fun t i2 k2 htj => hspec.2.2 t i2 k2 htj

theorem dagnode_put_first_failure_residual_witness :
    (dagNodePut testCfg failAt1 emptyNode testCid testData).2.db testCid
      = some testData.length :=
  (dagnode_put_first_failure_residual testCfg failAt1 emptyNode testCid
    testData 1 (by decide) rfl
    (fun t ht => by
      have h0 : t = 0 := by omega
      subst h0
      rfl)).2.1

/-- Claim C4 (code bug): on the `TestDagNode` input — payload "123456" of
length 6, `(k, m) = (2, 1)` — `DagNode.GetSize` returns the sum of the three
member shard sizes, 9, not the original block length 6 that
`meta.original_size` and the repository's own test require. -/
theorem dagnode_getsize_sums_shard_sizes :
    (dagNodePut testCfg noFail emptyNode testCid testData).1 = Except.ok () ∧
    dagNodeGetSize testCfg
        (dagNodePut testCfg noFail emptyNode testCid testData).2 testCid
      = Except.ok 9 ∧
    testData.length = 6 ∧ (9 : Nat) ≠ 6 := by
  refine ⟨dagnode_put_c1_ok, ?_, rfl, by decide⟩
  simp only [dagNodeGetSize, dagNodePut, testCfg, NodeCfg.n, sha256_c1_eval,
    fileID_c1_eval]
  decide

/-! ### Shard-key rendering and cask routing (claim C8) -/

theorem getD_mem_of_default_mem {α : Type} (l : List α) (n : Nat) (d : α)
    (hd : d ∈ l) : l.getD n d ∈ l := by
  by_cases h : n < l.length
  · rw [List.getD_eq_getElem l d h]
    exact List.getElem_mem h
  · rw [List.getD_eq_default l d (by omega)]
    exact hd

theorem toHex_length (bs : List Nat) : (toHex bs).length = 2 * bs.length := by
  show (List.flatten (bs.map hexByte)).length = 2 * bs.length
  induction bs with
  | nil => rfl
  | cons b tl ih =>
    simp only [List.map_cons, List.flatten_cons, List.length_append, ih,
      List.length_cons]
    simp [hexByte]
    omega

theorem sha256Round_length (st : List Nat) (kw : Nat × Nat) :
    (sha256Round st kw).length = st.length := by
  unfold sha256Round
  split
  · simp
  · rfl

theorem foldl_sha256Round_length (l : List (Nat × Nat)) :
    ∀ hs : List Nat, (l.foldl sha256Round hs).length = hs.length := by
  induction l with
  | nil => intro hs; rfl
  | cons a tl ih =>
    intro hs
    rw [List.foldl_cons, ih (sha256Round hs a), sha256Round_length]

theorem sha256Compress_length (hs block : List Nat) (h : hs.length = 8) :
    (sha256Compress hs block).length = 8 := by
  unfold sha256Compress
  rw [List.length_zipWith, foldl_sha256Round_length, h]
  simp

theorem foldl_compress_length (blocks : List (List Nat)) :
    ∀ hs : List Nat, hs.length = 8 →
      (blocks.foldl sha256Compress hs).length = 8 := by
  induction blocks with
  | nil => intro hs h; exact h
  | cons b tl ih =>
    intro hs h
    rw [List.foldl_cons]
    exact ih _ (sha256Compress_length hs b h)

theorem map_bytesOfWord_flatten_length (l : List Nat) :
    ((l.map bytesOfWord).flatten).length = 4 * l.length := by
  induction l with
  | nil => rfl
  | cons w tl ih =>
    simp only [List.map_cons, List.flatten_cons, List.length_append, ih,
      List.length_cons]
    simp [bytesOfWord]
    omega

theorem sha256Bytes_length (msg : List Nat) : (sha256Bytes msg).length = 32 := by
  unfold sha256Bytes
  rw [map_bytesOfWord_flatten_length, foldl_compress_length _ sha256H0 rfl]

theorem sha256String_length (s : String) : (sha256String s).length = 64 := by
  unfold sha256String
  rw [toHex_length, sha256Bytes_length]

theorem toHex_chars_lower (bs : List Nat) :
    ∀ c ∈ (toHex bs).data, c ∈ hexChars := by
  intro c hc
  have hc2 : c ∈ (bs.map hexByte).flatten := hc
  rw [List.mem_flatten] at hc2
  rcases hc2 with ⟨l, hl, hcl⟩
  rcases List.mem_map.mp hl with ⟨b, _, rfl⟩
  simp only [hexByte, List.mem_cons, List.mem_singleton] at hcl
  rcases hcl with h | h | h
  · rw [h]; exact getD_mem_of_default_mem _ _ _ (by decide)
  · rw [h]; exact getD_mem_of_default_mem _ _ _ (by decide)
  · cases h

/-- Claim C8: the local shard key is the lowercase hexadecimal rendering of
SHA-256 of the cid string — 64 characters, all lowercase hex digits — and
the cask id inside a store is CRC32 of the shard key modulo CaskNum, a
value below CaskNum; both are deterministic functions of the key alone. -/
theorem shard_key_and_cask_routing
    (s key : String) (caskNum : Nat) (h : 0 < caskNum) :
    sha256String s = toHex (sha256Bytes (utf8Bytes s)) ∧
    (sha256String s).length = 64 ∧
    (∀ c ∈ (sha256String s).data, c ∈ hexChars) ∧
    fileID caskNum key = crc32 (utf8Bytes key) % caskNum ∧
    fileID caskNum key < caskNum ∧
    (∀ s2 key2, s = s2 → key = key2 →
      sha256String s = sha256String s2 ∧
      fileID caskNum key = fileID caskNum key2) := by
  refine ⟨rfl, sha256String_length s, toHex_chars_lower _, rfl,
    Nat.mod_lt _ h, ?_⟩
  intro s2 key2 hs hk
  subst hs
  subst hk
  exact ⟨rfl, rfl⟩

theorem shard_key_and_cask_routing_witness :
    fileID 256 testCid < 256 :=
  (shard_key_and_cask_routing testCid testCid 256 (by decide)).2.2.2.2.1

theorem dagpool_has_iff_witness :
    poolHas emptyPool "c1" = true ↔
      (1 ≤ emptyPool.refCount "c1" ∨ emptyPool.cacheSet "c1" = true) :=
  dagpool_has_iff emptyPool "c1"
